import Mathlib

/-!
# SAM-Radar adverse-media pipeline: a verified shallow embedding

This file embeds the core pipeline of `app.py` (SAM-Radar) in Lean 4:
alias resolution, query generation, the relevance filter (including the
`difflib.SequenceMatcher` fuzzy ratio), the per-hit aggregation and
deduplication loop, the domain-priority re-sort and the risk scorer.
Network connectors are modelled as functions of an `Except`-valued
response: the `Except.error` branch models any transport or parse
exception reaching the connector's `try ... except` handler.

Python-specific conventions used throughout:
* strings are modelled through their character lists (`String.data`);
* `str.strip()` / `str.lower()` are modelled over the ASCII range, which
  covers every string the claims touch;
* a dict field that may be `None` is modelled as `""`, which is
  observationally equivalent here because every consumer applies
  `or ""` / truthiness before use;
* Python dicts are modelled as association lists in insertion order.
-/

set_option maxRecDepth 10000

namespace SamRadar

/-! ## Python string primitives -/

/-- Whitespace recognised by Python's `str.strip()` (ASCII subset). -/
def isPyWs (c : Char) : Bool :=
  c = ' ' || c = '\t' || c = '\n' || c = '\r' || c = '\x0b' || c = '\x0c'

/-- Python `str.strip()`. -/
def pyStrip (s : String) : String :=
  String.mk (((s.data.dropWhile isPyWs).reverse.dropWhile isPyWs).reverse)

/-- Python `str.lower()` (ASCII range). -/
def lowerStr (s : String) : String :=
  String.mk (s.data.map Char.toLower)

/-- Does the character list `p` occur in `t` starting at index `i`? -/
def occursAt (t p : List Char) (i : Nat) : Bool :=
  decide ((t.drop i).take p.length = p)

/-- Python's substring test `needle in hay`. -/
def strContains (hay needle : String) : Bool :=
  (List.range (hay.data.length + 1)).any (fun i => occursAt hay.data needle.data i)

/-- A regex word character (`\w`), ASCII range: letters, digits, underscore. -/
def isWordChar (c : Char) : Bool := c.isAlphanum || c = '_'

/-- Is the character at index `i` of `t` a word character (out of range counts as no)? -/
def wordAt (t : List Char) (i : Nat) : Bool :=
  match t.get? i with
  | some c => isWordChar c
  | none => false

/-- Does the regex boundary `\b` match at position `i` of `t`? -/
def boundaryAt (t : List Char) (i : Nat) : Bool :=
  (if i = 0 then false else wordAt t (i - 1)) != wordAt t i

/-- Model of `re.search(r'\b' + re.escape(p) + r'\b', t)`: the escaped
pattern is a literal, so this is an occurrence of `p` flanked by `\b`. -/
def wordBoundSearch (p t : List Char) : Bool :=
  (List.range (t.length + 1)).any
    (fun i => boundaryAt t i && occursAt t p i && boundaryAt t (i + p.length))

/-- First-occurrence deduplication with an accumulator of already seen
elements; models Python's `list(dict.fromkeys(xs))`. -/
def dedupFirstAux (seen : List String) : List String → List String
  | [] => []
  | x :: xs =>
    if x ∈ seen then dedupFirstAux seen xs
    else x :: dedupFirstAux (x :: seen) xs

/-- Python `list(dict.fromkeys(xs))`: first occurrences, order preserved. -/
def dedupFirst (l : List String) : List String := dedupFirstAux [] l

/-! ## Normalized link key (`add_hits`, line 339)

`key = re.sub(r'\?.*$', '', link).rstrip('/')`.  The regex removes, from
the leftmost `'?'` after which no newline occurs before the final
position, everything up to the end (a single trailing newline survives,
since `.` does not cross it and `$` matches just before it). -/

/-- Model of `re.sub(r'\?.*$', '', s)` over the character list. -/
def reSubQEnd : List Char → List Char
  | [] => []
  | c :: rest =>
    if c = '?' ∧ rest.dropLast.all (fun x => x ≠ '\n') then
      if rest.getLast? = some '\n' then ['\n'] else []
    else c :: reSubQEnd rest

/-- Python `s.rstrip('/')`: remove every trailing slash. -/
def rstripSlash (l : List Char) : List Char :=
  (l.reverse.dropWhile (fun c => c = '/')).reverse

/-- The deduplication key of a link: query string stripped, trailing
slashes stripped (`app.py` line 339). -/
def normKey (link : String) : String :=
  String.mk (rstripSlash (reSubQEnd link.data))

/-! ## difflib.SequenceMatcher (rule 2 of the relevance filter)

`is_relevant_to_aliases` calls
`difflib.SequenceMatcher(None, a.lower(), title.lower()).ratio()`.
With `isjunk = None` the junk set is empty; the autojunk rule still
applies to the second sequence when it has at least 200 elements. -/

/-- Is `c` "popular" in `b` in difflib's autojunk sense: `b` has at
least 200 elements and `c` occurs more than `len(b) // 100 + 1` times. -/
def isPopular (b : List Char) (c : Char) : Bool :=
  decide (200 ≤ b.length) && decide (b.length / 100 + 1 < b.count c)

/-- The `b2j` entry for character `c`: ascending positions of `c` in
`b`, empty when `c` is popular (autojunk removes popular entries). -/
def jPositions (popB : Char → Bool) (b : List Char) (c : Char) : List Nat :=
  if popB c then []
  else (List.range b.length).filter (fun j => decide (b.get? j = some c))

/-- One row of `find_longest_match`'s dynamic programming: for row `i`
fold over the `b2j` positions `js` of `a[i]`, building the new `j2len`
row and updating the best block `(besti, bestj, bestsize)`. -/
def flmStep (j2len : Nat → Nat) (i : Nat) (js : List Nat)
    (best : Nat × Nat × Nat) : (Nat → Nat) × (Nat × Nat × Nat) :=
  js.foldl
    (fun (acc : (Nat → Nat) × (Nat × Nat × Nat)) j =>
      let k := (if j = 0 then 0 else j2len (j - 1)) + 1
      let newRow := fun x => if x = j then k else acc.1 x
      let best' := if acc.2.2.2 < k then (i + 1 - k, j + 1 - k, k) else acc.2
      (newRow, best'))
    ((fun _ => 0), best)

/-- The main loop of `find_longest_match` over the rows of `a`. -/
def flmLoop (popB : Char → Bool) (a b : List Char) : Nat × Nat × Nat :=
  (a.enum.foldl
    (fun (acc : (Nat → Nat) × (Nat × Nat × Nat)) ic =>
      flmStep acc.1 ic.1 (jPositions popB b ic.2) acc.2)
    ((fun _ => 0), (0, 0, 0))).2

/-- difflib's first extension loop: grow the best block leftwards over
equal characters (the junk guard is vacuous: the junk set is empty). -/
def extendLeft (a b : List Char) : Nat → Nat → Nat → Nat × Nat × Nat
  | 0, j, k => (0, j, k)
  | i + 1, 0, k => (i + 1, 0, k)
  | i + 1, j + 1, k =>
    match a.get? i, b.get? j with
    | some x, some y =>
      if x = y then extendLeft a b i j (k + 1) else (i + 1, j + 1, k)
    | _, _ => (i + 1, j + 1, k)

/-- difflib's second extension loop: grow the best block rightwards over
equal characters.  The fuel argument only bounds the iteration count; it
is called with `a.length`, which exceeds the largest possible number of
extensions, so the loop stops exactly when the Python condition fails. -/
def extendRight (a b : List Char) (i j : Nat) : Nat → Nat → Nat
  | 0, k => k
  | fuel + 1, k =>
    match a.get? (i + k), b.get? (j + k) with
    | some x, some y => if x = y then extendRight a b i j fuel (k + 1) else k
    | _, _ => k

/-- `SequenceMatcher.find_longest_match` on full ranges, with the junk
set empty (`isjunk` is `None` at the call site, so the third and fourth
extension loops never fire and are omitted). -/
def find_longest_match (popB : Char → Bool) (a b : List Char) : Nat × Nat × Nat :=
  let r := flmLoop popB a b
  let e := extendLeft a b r.1 r.2.1 r.2.2
  (e.1, e.2.1, extendRight a b e.1 e.2.1 a.length e.2.2)

/-- Total size of all matching blocks (`get_matching_blocks` recursion):
take the longest match, recurse on the region to its left and to its
right.  `find_longest_match` always returns a block inside the two
sequences; the bounds guard only makes the recursion well-founded. -/
def matchTotalAux (popB : Char → Bool) : List Char → List Char → Nat
  | a, b =>
    match find_longest_match popB a b with
    | (i, j, k) =>
      if hk : k = 0 then 0
      else if hb : i + k ≤ a.length ∧ j + k ≤ b.length then
        k + (if 0 < i ∧ 0 < j then matchTotalAux popB (a.take i) (b.take j) else 0)
          + (if i + k < a.length ∧ j + k < b.length then
               matchTotalAux popB (a.drop (i + k)) (b.drop (j + k)) else 0)
      else k
termination_by a b => a.length + b.length
decreasing_by
  · simp only [List.length_take]
    omega
  · simp only [List.length_drop]
    omega

/-- `sum(block.size for block in get_matching_blocks())` for the two
character lists, with autojunk computed from the full second sequence. -/
def matchTotal (a b : List Char) : Nat :=
  matchTotalAux (isPopular b) a b

/-- `SequenceMatcher(None, a, b).ratio() >= 0.78`, with the threshold
`0.78` taken exactly as the rational `39/50`:
`2*M/(la+lb) >= 39/50  iff  39*(la+lb) <= 100*M` (and `1.0` when both
sequences are empty).  No claim settled here sits on the floating-point
rounding boundary of the comparison. -/
def ratioGE078 (a b : List Char) : Bool :=
  if a.length + b.length = 0 then true
  else decide (39 * (a.length + b.length) ≤ 100 * matchTotal a b)

/-! ## Relevance filter (`is_relevant_to_aliases`, lines 265-277) -/

/-- The fixed adverse keyword list of the relevance filter (line 274). -/
def adverseKeywords : List String :=
  ["fraud", "sanction", "arrest", "investigation", "scam", "money laundering",
   "charged", "lawsuit", "fine", "convicted", "corruption"]

/-- Rule 1: some alias, lowercased, occurs as a `\b`-delimited word in
the lowercased text. -/
def alias_word_match (aliases : List String) (text : String) : Bool :=
  aliases.any (fun a => wordBoundSearch (lowerStr a).data text.data)

/-- Rule 2: some alias has `SequenceMatcher` ratio at least 0.78 against
the lowercased title. -/
def fuzzy_title_match (aliases : List String) (title : String) : Bool :=
  aliases.any (fun a => ratioGE078 (lowerStr a).data (lowerStr title).data)

/-- Rule 3: the text contains one of the fixed adverse keywords. -/
def adverse_keyword_match (text : String) : Bool :=
  adverseKeywords.any (fun k => strContains text k)

/-- `is_relevant_to_aliases(aliases, title, summary)`: the three rules
in the source's order, first hit wins. -/
def is_relevant_to_aliases (aliases : List String) (title summary : String) : Bool :=
  let text := lowerStr (title ++ " " ++ summary)
  alias_word_match aliases text
    || fuzzy_title_match aliases title
    || adverse_keyword_match text

/-! ## Risk scorer (`risk_level_from_text`, lines 123-138) -/

/-- High-severity keywords, each worth 2 points (line 125). -/
def highKeywords : List String :=
  ["fraud", "money laundering", "scam", "crime", "corruption", "sanction",
   "arrest", "convicted", "charged"]

/-- Medium-severity keywords, each worth 1 point (line 126). -/
def mediumKeywords : List String :=
  ["investigation", "probe", "regulatory", "lawsuit", "review"]

/-- `risk_level_from_text(text)`: accumulate 2 per present high keyword
and 1 per present medium keyword over the lowercased text, then band. -/
def risk_level_from_text (text : String) : String :=
  let t := lowerStr text
  let score := highKeywords.foldl (fun s w => if strContains t w then s + 2 else s) 0
  let score := mediumKeywords.foldl (fun s w => if strContains t w then s + 1 else s) score
  if 2 ≤ score then "High"
  else if score = 1 then "Medium"
  else "Low"

/-- The risk score as the specification words it: `2 ×` the number of
distinct high-severity keywords present `+ 1 ×` the number of distinct
medium-severity keywords present, each by a presence test on the
case-folded text. -/
def riskScoreSpec (text : String) : Nat :=
  let t := lowerStr text
  2 * highKeywords.countP (fun w => strContains t w)
    + mediumKeywords.countP (fun w => strContains t w)

/-- The risk band as the specification words it, from `riskScoreSpec`. -/
def riskLevelSpec (text : String) : String :=
  if 2 ≤ riskScoreSpec text then "High"
  else if riskScoreSpec text = 1 then "Medium"
  else "Low"

/-! ## Query generator (`build_query_variations`, lines 280-291) -/

/-- The fixed suffix list of the query generator (line 282). -/
def querySuffixes : List String :=
  ["", " plc", " ltd", " llc", " inc", " corp", " group", " holdings"]

/-- The fixed keyword list of the query generator (line 283). -/
def queryKeywords : List String :=
  ["fraud", "scam", "sanction", "arrest", "investigation", "money laundering",
   "charged", "convicted", "lawsuit", "fine", "corruption"]

/-- The query generator parameterised by the suffix and keyword lists:
per suffix in order, the trimmed base, then `base ++ " " ++ k` and
`k ++ " " ++ base` per keyword in order; empty strings removed; then
first-occurrence deduplication (`list(dict.fromkeys(...))`). -/
def build_query_variations_core (sfx kws : List String) (al : String) : List String :=
  let a := pyStrip al
  let queries := sfx.flatMap (fun s =>
    let base := pyStrip (a ++ s)
    base :: kws.flatMap (fun k => [base ++ " " ++ k, k ++ " " ++ base]))
  dedupFirst (queries.filter (fun q => q ≠ ""))

/-- `build_query_variations(alias)` with the source's fixed lists. -/
def build_query_variations (al : String) : List String :=
  build_query_variations_core querySuffixes queryKeywords al

/-! ## Raw hits and connector models (lines 141-262)

Each connector wraps one HTTP fetch-and-parse in `try ... except` and
returns a list built from the parsed payload.  The fetch-and-parse
outcome is modelled as an `Except` value: `Except.error` is any
transport or parse exception reaching the handler. -/

/-- A raw hit dict as produced by the connectors and consumed by
`add_hits` (`link` and the alternate key `url`; absent keys are `""`). -/
structure Hit where
  source : String := ""
  title : String := ""
  summary : String := ""
  link : String := ""
  url : String := ""
deriving DecidableEq

/-- A stored result record `{source, title, summary, link}`. -/
structure Result where
  source : String
  title : String
  summary : String
  link : String
deriving DecidableEq

/-- A NewsData article (`results` entry): `title`, `description`,
`content`, `link`. -/
structure NewsArticle where
  title : String := ""
  description : String := ""
  content : String := ""
  link : String := ""

/-- `newsdata_fetch(query, max_results)` (lines 225-240): empty when the
key is unset (after strip) or on any error; otherwise the first
`max_results` articles mapped to hits. -/
def newsdata_fetch (key : String) (resp : Except String (List NewsArticle))
    (maxResults : Nat) : List Hit :=
  if pyStrip key = "" then []
  else
    match resp with
    | .error _ => []
    | .ok arts =>
      (arts.take maxResults).map (fun a =>
        { source := "NewsData", title := a.title,
          summary := if a.description ≠ "" then a.description else a.content,
          link := a.link })

/-- A DuckDuckGo `Results` / `RelatedTopics` entry (`Text` or `Name`,
and `FirstURL`). -/
structure DdgTopic where
  text : String := ""
  name : String := ""
  firstURL : String := ""

/-- The parsed DuckDuckGo instant-answer payload.  `heading` models
`data.get("Heading", query)` with `""` for an absent key; a `none` in
`relatedTopics` models a non-dict entry (the `isinstance` check). -/
structure DdgData where
  abstractText : String := ""
  heading : String := ""
  abstractURL : String := ""
  results : List DdgTopic := []
  relatedTopics : List (Option DdgTopic) := []

/-- The final loop of `ddg_instant_search`: keep hits with a truthy
link and an unseen `link + "|" + title` key, stopping once
`max_results` are kept (the length check runs after every item). -/
def ddgDedupAux (maxResults : Nat) : List String → List Hit → List Hit → List Hit
  | _, acc, [] => acc
  | seen, acc, o :: rest =>
    let key := o.link ++ "|" ++ o.title
    let keep := key ∉ seen ∧ o.link ≠ ""
    let acc' := if keep then acc ++ [o] else acc
    let seen' := if keep then key :: seen else seen
    if maxResults ≤ acc'.length then acc'
    else ddgDedupAux maxResults seen' acc' rest

/-- `ddg_instant_search(query, max_results)` (lines 193-222). -/
def ddg_instant_search (query : String) (resp : Except String DdgData)
    (maxResults : Nat) : List Hit :=
  let out : List Hit :=
    match resp with
    | .error _ => []
    | .ok d =>
      (if d.abstractText ≠ "" then
        [{ source := "DuckDuckGo",
           title := if d.heading ≠ "" then d.heading else query,
           summary := d.abstractText, link := d.abstractURL }]
       else [])
      ++ (d.results.take maxResults).map (fun it =>
            { source := "DuckDuckGo", title := it.text, link := it.firstURL })
      ++ (d.relatedTopics.take maxResults).filterMap (fun t? =>
            match t? with
            | some t =>
              let text := if t.text ≠ "" then t.text else t.name
              if text ≠ "" ∧ t.firstURL ≠ "" then
                some { source := "DuckDuckGo", title := text, link := t.firstURL }
              else none
            | none => none)
  ddgDedupAux maxResults [] [] out

/-- One parsed Bing result block (`li.b_algo`): heading text, anchor
href, paragraph snippet; a missing element is `""`. -/
structure BingBlock where
  title : String := ""
  link : String := ""
  snippet : String := ""

/-- `bing_search(query, max_results)` (lines 243-262): the first
`max_results` blocks with a truthy link, mapped to hits. -/
def bing_search (resp : Except String (List BingBlock)) (maxResults : Nat) : List Hit :=
  match resp with
  | .error _ => []
  | .ok blocks =>
    (blocks.take maxResults).filterMap (fun b =>
      if b.link ≠ "" then
        some { source := "Bing", title := b.title, summary := b.snippet, link := b.link }
      else none)

/-- One OpenSanctions hit dict (aliased field pairs; absent keys `""`). -/
structure SancHit where
  name : String := ""
  label : String := ""
  schema : String := ""
  stype : String := ""
  sources : String := ""
  source : String := ""
  notes : String := ""
  summary : String := ""

/-- A sanctions record as surfaced by `check_opensanctions` (the `raw`
passthrough field is omitted). -/
structure SancRecord where
  name : String
  rtype : String
  source : String
  note : String
deriving DecidableEq

/-- `check_opensanctions(name)` (lines 169-190): empty for an empty
name or on any error; otherwise the first 10 hits mapped with
`or`-fallbacks between the aliased fields. -/
def check_opensanctions (resp : Except String (List SancHit)) (name : String) :
    List SancRecord :=
  if name = "" then []
  else
    match resp with
    | .error _ => []
    | .ok hits =>
      (hits.take 10).map (fun h =>
        { name := if h.name ≠ "" then h.name else h.label,
          rtype := if h.schema ≠ "" then h.schema else h.stype,
          source := if h.sources ≠ "" then h.sources else h.source,
          note := if h.notes ≠ "" then h.notes else h.summary })

/-- `get_wikipedia_aliases(name, max_aliases)` (lines 141-166).  On any
error the alias set is still `{name.strip()}`, so the call yields zero
additional aliases.  The success branch accumulates titles and
aka-phrases into a Python `set` whose iteration order is unspecified;
it is modelled here in insertion order (`discovered` are the collected
candidate strings).  Every claim settled below depends only on the
failure branch. -/
def get_wikipedia_aliases (resp : Except String (List String)) (name : String)
    (maxAliases : Nat) : List String :=
  match resp with
  | .error _ => [pyStrip name].take maxAliases
  | .ok discovered => (dedupFirst (pyStrip name :: discovered)).take maxAliases

/-! ## Aggregator (`smart_fetch_entity`, lines 294-384) -/

/-- The mutable state of the aggregation loop: the `results` list and
the `seen_links` set of normalized keys (modelled as a list). -/
structure AggState where
  results : List Result := []
  seen : List String := []
deriving DecidableEq

/-- `(h.get("link") or h.get("url") or "")` before stripping. -/
def rawLink (h : Hit) : String := if h.link ≠ "" then h.link else h.url

/-- The stripped link of a hit, as stored in a kept result. -/
def hitLink (h : Hit) : String := pyStrip (rawLink h)

/-- The normalized deduplication key of a hit. -/
def hitKey (h : Hit) : String := normKey (hitLink h)

/-- The result record appended for a kept hit. -/
def mkResult (src : String) (h : Hit) : Result :=
  { source := src, title := pyStrip h.title, summary := pyStrip h.summary,
    link := hitLink h }

/-- The relevance test as `add_hits` applies it (on stripped fields). -/
def relevantHit (aliases : List String) (h : Hit) : Bool :=
  is_relevant_to_aliases aliases (pyStrip h.title) (pyStrip h.summary)

/-- `add_hits(source_name, hits)` (lines 332-346): per hit, skip an
empty link or an already seen key (both `continue` past the cap check);
otherwise append when relevant and then stop the batch as soon as
`len(results) >= max_total`. -/
def add_hits (aliases : List String) (max_total : Nat) (src : String) :
    AggState → List Hit → AggState
  | st, [] => st
  | st, h :: hs =>
    if hitLink h = "" then add_hits aliases max_total src st hs
    else if hitKey h ∈ st.seen then add_hits aliases max_total src st hs
    else
      let st' := if relevantHit aliases h then
          { results := st.results ++ [mkResult src h], seen := hitKey h :: st.seen }
        else st
      if max_total ≤ st'.results.length then st'
      else add_hits aliases max_total src st' hs

/-- One connector section of `smart_fetch_entity`: for each query,
fetch a batch, apply `add_hits`, and break out of the loop once
`len(results) >= max_total`. -/
def run_section (aliases : List String) (max_total : Nat) (src : String)
    (fetch : String → List Hit) : AggState → List String → AggState
  | st, [] => st
  | st, q :: qs =>
    let st' := add_hits aliases max_total src st (fetch q)
    if max_total ≤ st'.results.length then st'
    else run_section aliases max_total src fetch st' qs

/-! ## Domain priority (lines 370-381)

`results.sort(key=domain_score)` with Python's list sort, which is
stable.  The stable sort is modelled by decorating each element with
its original index and sorting by the strict lexicographic order on
`(score, index)`, whose output is exactly the stable sort's. -/

/-- A character allowed in a URL scheme (`urllib.parse.scheme_chars`). -/
def schemeChar (c : Char) : Bool :=
  c.isAlpha || c.isDigit || c = '+' || c = '-' || c = '.'

/-- The scheme-splitting step of `urllib.parse.urlsplit`: drop a valid
leading `scheme:`, otherwise leave the URL unchanged. -/
def afterScheme (u : List Char) : List Char :=
  match u.findIdx? (fun c => decide (c = ':')) with
  | some i =>
    if 0 < i ∧ (u.take i).all schemeChar ∧ (u.headD ' ').isAlpha then
      u.drop (i + 1)
    else u
  | none => u

/-- `urlparse(link).hostname or ""` as consumed by `domain_score`:
`none` models a `ValueError` from unbalanced brackets in the netloc
(caught by the surrounding `except`).  Bracketed-host (IPv6) semantics
beyond bracket matching are not modelled; no claim uses such links. -/
def pyHostname (link : String) : Option String :=
  let u := afterScheme link.data
  if u.take 2 = ['/', '/'] then
    let netloc := (u.drop 2).takeWhile (fun c => c ≠ '/' ∧ c ≠ '?' ∧ c ≠ '#')
    if ('[' ∈ netloc ∧ ']' ∉ netloc) ∨ (']' ∈ netloc ∧ '[' ∉ netloc) then none
    else
      let hostinfo := (netloc.reverse.takeWhile (fun c => c ≠ '@')).reverse
      let host :=
        if '[' ∈ hostinfo then
          ((hostinfo.dropWhile (fun c => c ≠ '[')).drop 1).takeWhile (fun c => c ≠ ']')
        else hostinfo.takeWhile (fun c => c ≠ ':')
      some (String.mk (host.map Char.toLower))
  else some ""

/-- The enumerated scan of `domain_score`'s loop over the priority
list, carrying the running index. -/
def domainScoreGo (host : String) (L : Nat) : List String → Nat → Int
  | [], _ => 0
  | d :: ds, idx =>
    if strContains host d then -((L : Int) - (idx : Int))
    else domainScoreGo host L ds (idx + 1)

/-- `domain_score(item)` (lines 372-380): `-(len(list) - idx)` for the
first priority entry occurring in the hostname, else 0; a parse error
also yields 0 via the `except` handler. -/
def domain_score (dp : List String) (link : String) : Int :=
  match pyHostname link with
  | none => 0
  | some host => domainScoreGo host dp.length dp 0

/-- The score as the specification words it: the first priority entry
whose domain substring occurs in the hostname, at index `i`, scores
`-(len - i)`; no match scores 0. -/
def domainScoreSpec (dp : List String) (link : String) : Int :=
  match pyHostname link with
  | none => 0
  | some host =>
    match dp.enum.find? (fun p => strContains host p.2) with
    | some p => -((dp.length : Int) - (p.1 : Int))
    | none => 0

/-- The strict lexicographic order on `(score, original index)` used to
model the stable sort. -/
def keyRel (dp : List String) (x y : Nat × Result) : Prop :=
  domain_score dp x.2.link < domain_score dp y.2.link ∨
    (domain_score dp x.2.link = domain_score dp y.2.link ∧ x.1 ≤ y.1)

instance (dp : List String) : DecidableRel (keyRel dp) := fun x y =>
  inferInstanceAs (Decidable (_ ∨ _))

instance (dp : List String) : IsTotal (Nat × Result) (keyRel dp) where
  total x y := by
    unfold keyRel
    rcases Int.lt_trichotomy (domain_score dp x.2.link) (domain_score dp y.2.link)
      with h | h | h
    · exact Or.inl (Or.inl h)
    · rcases Nat.le_total x.1 y.1 with h' | h'
      · exact Or.inl (Or.inr ⟨h, h'⟩)
      · exact Or.inr (Or.inr ⟨h.symm, h'⟩)
    · exact Or.inr (Or.inl h)

instance (dp : List String) : IsTrans (Nat × Result) (keyRel dp) where
  trans x y z hxy hyz := by
    unfold keyRel at *
    rcases hxy with h1 | ⟨h1, h1'⟩ <;> rcases hyz with h2 | ⟨h2, h2'⟩
    · exact Or.inl (h1.trans h2)
    · exact Or.inl (h2 ▸ h1)
    · exact Or.inl (h1 ▸ h2)
    · exact Or.inr ⟨h1.trans h2, h1'.trans h2'⟩

/-- `results.sort(key=domain_score)`: Python's stable sort, modelled as
the index-decorated sort by `(score, index)`. -/
def sortByDomain (dp : List String) (results : List Result) : List Result :=
  (results.enum.insertionSort (keyRel dp)).map Prod.snd

/-- The tail of `smart_fetch_entity`: `if domain_priority_list:` — the
sort runs only for a supplied, non-empty priority list. -/
def apply_domain_priority (dp? : Option (List String)) (results : List Result) :
    List Result :=
  match dp? with
  | some dp => if dp ≠ [] then sortByDomain dp results else results
  | none => results

/-! ## Alias resolution and the full pipeline -/

/-- The override lookup of lines 299-308: exact key match first, then
the first case-insensitive key match, else just the name.  The
override dict is an association list in insertion order with unique
keys, so `find?` is dict lookup. -/
def resolve_raw_aliases (ov : List (String × List String)) (name : String) :
    List String :=
  match ov.find? (fun kv => decide (kv.1 = name)) with
  | some kv => name :: kv.2
  | none =>
    match ov.find? (fun kv => decide (lowerStr kv.1 = lowerStr name)) with
    | some kv => name :: kv.2
    | none => [name]

/-- Lines 310-317: append each Wikipedia alias not already present. -/
def expand_wiki (raw : List String) (wiki : List String) : List String :=
  wiki.foldl (fun acc w => if w ∈ acc then acc else acc ++ [w]) raw

/-- The environment of `smart_fetch_entity`: the module-level override
mapping, the `NEWSDATA_KEY` environment variable (`""` when unset), and
the connector functions as external collaborators (each is the
corresponding connector model applied to that query's response). -/
structure Env where
  alias_overrides : List (String × List String)
  newsdata_key : String
  newsdata : String → Nat → List Hit
  ddg : String → Nat → List Hit
  bing : String → Nat → List Hit
  wiki : String → Nat → List String

/-- `smart_fetch_entity` (lines 294-384): aliases, query bank, the
three connector sections in priority order, then the optional
domain-priority sort. -/
def smart_fetch_entity (env : Env) (entity_name : String)
    (per_source_limit max_total : Nat) (use_newsdata use_aliasing : Bool)
    (domain_priority_list : Option (List String)) : List Result :=
  if entity_name = "" then []
  else
    let raw_aliases := resolve_raw_aliases env.alias_overrides entity_name
    let aliases :=
      if use_aliasing then expand_wiki raw_aliases (env.wiki entity_name 6)
      else raw_aliases
    let query_bank := dedupFirst (aliases.flatMap build_query_variations)
    let st0 : AggState := {}
    let st1 :=
      if use_newsdata ∧ env.newsdata_key ≠ "" then
        run_section aliases max_total "NewsData"
          (fun q => env.newsdata q per_source_limit) st0 (query_bank.take 12)
      else st0
    let st2 := run_section aliases max_total "DuckDuckGo"
      (fun a => env.ddg (a ++ " sanctions OR fraud OR investigation") per_source_limit)
      st1 (aliases.take 4)
    let st3 := run_section aliases max_total "Bing"
      (fun q => env.bing q per_source_limit) st2 (query_bank.take 24)
    apply_domain_priority domain_priority_list st3.results

/-! Named stages of `smart_fetch_entity`, definitionally equal to the
let-bound intermediates of the pipeline (used to state its invariants). -/

/-- The alias list of a scan (lines 299-320). -/
def sfAliases (env : Env) (name : String) (ua : Bool) : List String :=
  if ua then
    expand_wiki (resolve_raw_aliases env.alias_overrides name) (env.wiki name 6)
  else resolve_raw_aliases env.alias_overrides name

/-- The deduplicated query bank of a scan (lines 323-326). -/
def sfQueryBank (env : Env) (name : String) (ua : Bool) : List String :=
  dedupFirst ((sfAliases env name ua).flatMap build_query_variations)

/-- The aggregation state after the NewsData section (lines 349-354). -/
def sfSt1 (env : Env) (name : String) (psl mt : Nat) (un ua : Bool) : AggState :=
  if un ∧ env.newsdata_key ≠ "" then
    run_section (sfAliases env name ua) mt "NewsData"
      (fun q => env.newsdata q psl) {} ((sfQueryBank env name ua).take 12)
  else {}

/-- The state after the DuckDuckGo section (lines 357-361). -/
def sfSt2 (env : Env) (name : String) (psl mt : Nat) (un ua : Bool) : AggState :=
  run_section (sfAliases env name ua) mt "DuckDuckGo"
    (fun a => env.ddg (a ++ " sanctions OR fraud OR investigation") psl)
    (sfSt1 env name psl mt un ua) ((sfAliases env name ua).take 4)

/-- The state after the Bing section (lines 364-368). -/
def sfSt3 (env : Env) (name : String) (psl mt : Nat) (un ua : Bool) : AggState :=
  run_section (sfAliases env name ua) mt "Bing" (fun q => env.bing q psl)
    (sfSt2 env name psl mt un ua) ((sfQueryBank env name ua).take 24)

/-! ## Helper lemmas -/

theorem dedupFirstAux_nodup (l : List String) :
    ∀ seen, (dedupFirstAux seen l).Nodup ∧ ∀ x ∈ dedupFirstAux seen l, x ∉ seen := by
  induction l with
  | nil => intro seen; exact ⟨List.nodup_nil, by simp [dedupFirstAux]⟩
  | cons x xs ih =>
    intro seen
    by_cases hx : x ∈ seen
    · simp only [dedupFirstAux, if_pos hx]
      exact ih seen
    · simp only [dedupFirstAux, if_neg hx]
      obtain ⟨h1, h2⟩ := ih (x :: seen)
      refine ⟨List.nodup_cons.2 ⟨fun hmem => ?_, h1⟩, ?_⟩
      · exact (h2 x hmem) (List.mem_cons_self x seen)
      · intro y hy
        rcases List.mem_cons.1 hy with rfl | hy'
        · exact hx
        · intro hyseen
          exact (h2 y hy') (List.mem_cons_of_mem _ hyseen)

theorem dedupFirst_nodup (l : List String) : (dedupFirst l).Nodup :=
  (dedupFirstAux_nodup l []).1

theorem foldl_add_two (p : String → Bool) (l : List String) :
    ∀ n : Nat, l.foldl (fun s w => if p w then s + 2 else s) n = n + 2 * l.countP p := by
  induction l with
  | nil => intro n; simp
  | cons a l ih =>
    intro n
    simp only [List.foldl_cons, List.countP_cons]
    cases hpa : p a <;> simp [hpa, ih] <;> omega

theorem foldl_add_one (p : String → Bool) (l : List String) :
    ∀ n : Nat, l.foldl (fun s w => if p w then s + 1 else s) n = n + l.countP p := by
  induction l with
  | nil => intro n; simp
  | cons a l ih =>
    intro n
    simp only [List.foldl_cons, List.countP_cons]
    cases hpa : p a <;> simp [hpa, ih] <;> omega

/-! ## Claims -/

/-- C4: for alias "Acme" with suffix list `["", " ltd"]` and keyword
list `["fraud"]` the query generator returns exactly
`["Acme", "Acme fraud", "fraud Acme", "Acme ltd", "Acme ltd fraud",
"fraud Acme ltd"]`; in general it emits, per suffix in order, the
trimmed base followed by `base keyword` then `keyword base` per keyword
in order, deduplicated preserving first-seen order (so the output never
contains duplicates), and the source's generator is this scheme
instantiated at its fixed suffix and keyword lists. -/
theorem c4_query_generator :
    build_query_variations_core ["", " ltd"] ["fraud"] "Acme" =
      ["Acme", "Acme fraud", "fraud Acme", "Acme ltd", "Acme ltd fraud",
       "fraud Acme ltd"] ∧
    (∀ sfx kws al, (build_query_variations_core sfx kws al).Nodup) ∧
    (∀ al, build_query_variations al =
      build_query_variations_core querySuffixes queryKeywords al) := by
  refine ⟨by decide, ?_, fun _ => rfl⟩
  intro sfx kws al
  exact dedupFirst_nodup _

/-- C7: the risk scorer computes `2 ×` the number of distinct
high-severity keywords present plus `1 ×` the number of distinct
medium-severity keywords present on the case-folded text and bands the
score as High when at least 2, Medium when exactly 1, Low when 0; in
particular "fraud investigation" and "regulatory review" score High,
"probe" Medium, and "hello world" Low. -/
theorem c7_risk_scorer :
    (∀ text : String, risk_level_from_text text = riskLevelSpec text) ∧
    risk_level_from_text "fraud investigation" = "High" ∧
    risk_level_from_text "regulatory review" = "High" ∧
    risk_level_from_text "probe" = "Medium" ∧
    risk_level_from_text "hello world" = "Low" := by
  refine ⟨?_, by decide, by decide, by decide, by decide⟩
  intro text
  simp only [risk_level_from_text, riskLevelSpec, riskScoreSpec]
  rw [foldl_add_two, foldl_add_one]
  simp only [Nat.zero_add]

/-- C5: the relevance filter keeps any candidate for which some alias,
case-folded, occurs as a whole-word (`\b`-delimited) match inside the
case-folded `title ++ " " ++ summary`; and word boundaries are
respected: "Lukoil" inside "Lukoilish" does not trigger this rule. -/
theorem c5_whole_word_rule :
    (∀ (aliases : List String) (title summary a : String),
        a ∈ aliases →
        wordBoundSearch (lowerStr a).data (lowerStr (title ++ " " ++ summary)).data = true →
        is_relevant_to_aliases aliases title summary = true) ∧
    alias_word_match ["Lukoil"] (lowerStr ("Lukoilish" ++ " " ++ "")) = false := by
  refine ⟨?_, by decide⟩
  intro aliases title summary a ha hw
  have h1 : alias_word_match aliases (lowerStr (title ++ " " ++ summary)) = true :=
    List.any_eq_true.2 ⟨a, ha, hw⟩
  simp [is_relevant_to_aliases, h1]

theorem c5_whole_word_rule_witness :
    ("Acme" ∈ ["Acme"]) ∧
    wordBoundSearch (lowerStr "Acme").data
      (lowerStr ("Acme fined" ++ " " ++ "")).data = true ∧
    is_relevant_to_aliases ["Acme"] "Acme fined" "" = true :=
  ⟨by decide, by decide,
   c5_whole_word_rule.1 ["Acme"] "Acme fined" "" "Acme" (by decide) (by decide)⟩

/-- C6: the relevance filter keeps any candidate whose combined
case-folded text contains at least one keyword of the fixed adverse
list, independently of any alias match. -/
theorem c6_adverse_fallback :
    ∀ (aliases : List String) (title summary : String),
      adverse_keyword_match (lowerStr (title ++ " " ++ summary)) = true →
      is_relevant_to_aliases aliases title summary = true := by
  intro aliases title summary h
  simp [is_relevant_to_aliases, h]

theorem c6_adverse_fallback_witness :
    adverse_keyword_match (lowerStr ("Unrelated Inc files lawsuit" ++ " " ++ "")) = true ∧
    alias_word_match ["Acme"] (lowerStr ("Unrelated Inc files lawsuit" ++ " " ++ "")) = false ∧
    is_relevant_to_aliases ["Acme"] "Unrelated Inc files lawsuit" "" = true :=
  ⟨by decide, by decide,
   c6_adverse_fallback ["Acme"] "Unrelated Inc files lawsuit" "" (by decide)⟩

/-- C3 counterexample: for the override mapping
`[("Acme", ["Acme", "Acme Ltd"])]` and entity name "Acme" the resolver
returns `["Acme", "Acme", "Acme Ltd"]`, which contains the name twice:
seed aliases are appended verbatim, with no duplicate skipping, so the
claimed "no duplicate elements" fails. -/
theorem c3_counterexample :
    resolve_raw_aliases [("Acme", ["Acme", "Acme Ltd"])] "Acme" =
      ["Acme", "Acme", "Acme Ltd"] ∧
    ¬ (resolve_raw_aliases [("Acme", ["Acme", "Acme Ltd"])] "Acme").Nodup := by
  exact ⟨by decide, by decide⟩

/-- C3 (amended): for an entity name matching a key of the override
mapping — by exact match, or else by the first case-insensitive match —
the resolver returns the entity name itself at index 0 followed by every
seed alias of the matched key in seed order, appended verbatim (already
present aliases, including the name itself, are not skipped). -/
theorem c3_alias_resolver_amended :
    (∀ (ov : List (String × List String)) (name : String) (kv : String × List String),
        ov.find? (fun e => decide (e.1 = name)) = some kv →
        resolve_raw_aliases ov name = name :: kv.2) ∧
    (∀ (ov : List (String × List String)) (name : String) (kv : String × List String),
        ov.find? (fun e => decide (e.1 = name)) = none →
        ov.find? (fun e => decide (lowerStr e.1 = lowerStr name)) = some kv →
        resolve_raw_aliases ov name = name :: kv.2) := by
  constructor
  · intro ov name kv h
    unfold resolve_raw_aliases
    rw [h]
  · intro ov name kv h1 h2
    unfold resolve_raw_aliases
    rw [h1, h2]

theorem c3_alias_resolver_amended_witness :
    ([("Acme", ["AcmeCorp"])].find? (fun e => decide (e.1 = "Acme")) =
        some ("Acme", ["AcmeCorp"]) ∧
      resolve_raw_aliases [("Acme", ["AcmeCorp"])] "Acme" = ["Acme", "AcmeCorp"]) ∧
    ([("ACME", ["Acme Ltd"])].find? (fun e => decide (e.1 = "acme")) = none ∧
      [("ACME", ["Acme Ltd"])].find?
        (fun e => decide (lowerStr e.1 = lowerStr "acme")) = some ("ACME", ["Acme Ltd"]) ∧
      resolve_raw_aliases [("ACME", ["Acme Ltd"])] "acme" = ["acme", "Acme Ltd"]) :=
  ⟨⟨by decide,
    c3_alias_resolver_amended.1 [("Acme", ["AcmeCorp"])] "Acme"
      ("Acme", ["AcmeCorp"]) (by decide)⟩,
   ⟨by decide, by decide,
    c3_alias_resolver_amended.2 [("ACME", ["Acme Ltd"])] "acme"
      ("ACME", ["Acme Ltd"]) (by decide) (by decide)⟩⟩

/-! ## Aggregation-loop lemmas -/

theorem add_hits_nil (aliases : List String) (mt : Nat) (src : String) (st : AggState) :
    add_hits aliases mt src st [] = st := rfl

theorem run_section_empty_fetch (mt : Nat) (src : String) (fetch : String → List Hit)
    (hf : ∀ q, fetch q = []) :
    ∀ (aliases qs : List String) (st : AggState),
      run_section aliases mt src fetch st qs = st := by
  intro aliases qs
  induction qs with
  | nil => intro st; rfl
  | cons q qs ih =>
    intro st
    simp only [run_section, hf q, add_hits_nil]
    split
    · rfl
    · exact ih st

theorem apply_domain_priority_nil (dp? : Option (List String)) :
    apply_domain_priority dp? [] = [] := by
  cases dp? with
  | none => rfl
  | some dp =>
    show (if dp ≠ [] then sortByDomain dp [] else []) = []
    split
    · rfl
    · rfl

/-- C9: no connector failure is fatal: every source connector and the
alias-discovery lookup turn any transport or parse failure (the
`Except.error` response) into an empty list — the discovery lookup into
zero additional aliases beyond the stripped name — and a scan in which
every connector fails returns the empty result set. -/
theorem c9_no_fatal_failures :
    (∀ (e : String) (n : Nat), bing_search (Except.error e) n = []) ∧
    (∀ (q e : String) (n : Nat), ddg_instant_search q (Except.error e) n = []) ∧
    (∀ (key e : String) (n : Nat), newsdata_fetch key (Except.error e) n = []) ∧
    (∀ (e name : String), check_opensanctions (Except.error e) name = []) ∧
    (∀ (e name : String) (maxA : Nat),
      get_wikipedia_aliases (Except.error e) name maxA = [pyStrip name].take maxA) ∧
    (∀ (ov : List (String × List String)) (key e1 e2 e3 e4 name : String)
        (psl mt : Nat) (un ua : Bool) (dp : Option (List String)),
      smart_fetch_entity
        { alias_overrides := ov, newsdata_key := key,
          newsdata := fun _ n => newsdata_fetch key (Except.error e1) n,
          ddg := fun q n => ddg_instant_search q (Except.error e2) n,
          bing := fun _ n => bing_search (Except.error e3) n,
          wiki := fun nm k => get_wikipedia_aliases (Except.error e4) nm k }
        name psl mt un ua dp = []) := by
  refine ⟨fun e n => rfl, fun q e n => rfl, ?_, ?_, fun e name maxA => rfl, ?_⟩
  · intro key e n
    unfold newsdata_fetch
    split <;> rfl
  · intro e name
    unfold check_opensanctions
    split <;> rfl
  · intro ov key e1 e2 e3 e4 name psl mt un ua dp
    have hnews : ∀ (aliases qs : List String) (st : AggState),
        run_section aliases mt "NewsData"
          (fun q => newsdata_fetch key (Except.error e1) psl) st qs = st :=
      run_section_empty_fetch mt "NewsData" _
        (fun q => by unfold newsdata_fetch; split <;> rfl)
    have hddg : ∀ (aliases qs : List String) (st : AggState),
        run_section aliases mt "DuckDuckGo"
          (fun a => ddg_instant_search (a ++ " sanctions OR fraud OR investigation")
            (Except.error e2) psl) st qs = st :=
      run_section_empty_fetch mt "DuckDuckGo" _ (fun q => rfl)
    have hbing : ∀ (aliases qs : List String) (st : AggState),
        run_section aliases mt "Bing"
          (fun q => bing_search (Except.error e3) psl) st qs = st :=
      run_section_empty_fetch mt "Bing" _ (fun q => rfl)
    by_cases hn : name = ""
    · simp [smart_fetch_entity, hn]
    · simp only [smart_fetch_entity, if_neg hn, hnews, hddg, hbing, ite_self]
      exact apply_domain_priority_nil dp

theorem add_hits_length_mono (aliases : List String) (mt : Nat) (src : String) :
    ∀ (hs : List Hit) (st : AggState),
      st.results.length ≤ (add_hits aliases mt src st hs).results.length := by
  intro hs
  induction hs with
  | nil => intro st; exact Nat.le_refl _
  | cons h hs ih =>
    intro st
    simp only [add_hits]
    split_ifs
    all_goals first
      | exact ih _
      | exact Nat.le_refl _
      | simp
      | (refine Nat.le_trans ?_ (ih _); simp)

theorem add_hits_length_le (aliases : List String) (mt : Nat) (src : String) :
    ∀ (hs : List Hit) (st : AggState),
      st.results.length < mt →
      (add_hits aliases mt src st hs).results.length ≤ mt := by
  intro hs
  induction hs with
  | nil => intro st h; exact Nat.le_of_lt h
  | cons h hs ih =>
    intro st hlt
    simp only [add_hits]
    split_ifs with h1 h2 h3 h4 h5
    · exact ih st hlt
    · exact ih st hlt
    · simpa using hlt
    · refine ih _ ?_
      simp only [List.length_append, List.length_cons, List.length_nil] at h4 ⊢
      omega
    · exact Nat.le_of_lt hlt
    · exact ih st hlt

theorem add_hits_length_geq (aliases : List String) (mt : Nat) (src : String) :
    ∀ (hs : List Hit) (st : AggState),
      mt ≤ st.results.length →
      (add_hits aliases mt src st hs).results.length ≤ st.results.length + 1 := by
  intro hs
  induction hs with
  | nil => intro st _; exact Nat.le_succ _
  | cons h hs ih =>
    intro st hge
    simp only [add_hits]
    split_ifs with h1 h2 h3 h4 h5
    · exact ih st hge
    · exact ih st hge
    · simp
    · exfalso
      simp only [List.length_append, List.length_cons, List.length_nil] at h4
      omega
    · exact Nat.le_succ _

theorem run_section_length_le (aliases : List String) (mt : Nat) (src : String)
    (fetch : String → List Hit) :
    ∀ (qs : List String) (st : AggState),
      st.results.length < mt →
      (run_section aliases mt src fetch st qs).results.length ≤ mt := by
  intro qs
  induction qs with
  | nil => intro st h; exact Nat.le_of_lt h
  | cons q qs ih =>
    intro st hlt
    simp only [run_section]
    split_ifs with h1
    · exact add_hits_length_le aliases mt src _ st hlt
    · refine ih _ ?_
      exact Nat.lt_of_not_le h1

theorem run_section_length_geq (aliases : List String) (mt : Nat) (src : String)
    (fetch : String → List Hit) :
    ∀ (qs : List String) (st : AggState),
      mt ≤ st.results.length →
      (run_section aliases mt src fetch st qs).results.length ≤
        st.results.length + 1 := by
  intro qs
  induction qs with
  | nil => intro st _; exact Nat.le_succ _
  | cons q qs ih =>
    intro st hge
    simp only [run_section]
    split_ifs with h1
    · exact add_hits_length_geq aliases mt src _ st hge
    · exfalso
      exact h1 (Nat.le_trans hge (add_hits_length_mono aliases mt src _ st))

theorem run_section_length_bound (aliases : List String) (mt : Nat) (src : String)
    (fetch : String → List Hit) (qs : List String) (st : AggState) :
    (run_section aliases mt src fetch st qs).results.length ≤
      max st.results.length mt + 1 := by
  rcases Nat.lt_or_ge st.results.length mt with h | h
  · exact Nat.le_trans (run_section_length_le aliases mt src fetch qs st h) (by omega)
  · exact Nat.le_trans (run_section_length_geq aliases mt src fetch qs st h) (by omega)

/-- The aggregation invariant: pairwise-distinct normalized keys, every
result's key recorded in `seen`, and no empty links. -/
def AggInv (st : AggState) : Prop :=
  (st.results.map (fun r => normKey r.link)).Nodup ∧
  (∀ r ∈ st.results, normKey r.link ∈ st.seen) ∧
  (∀ r ∈ st.results, r.link ≠ "")

theorem aggInv_empty : AggInv {} :=
  ⟨List.nodup_nil, fun r hr => absurd hr (List.not_mem_nil r),
   fun r hr => absurd hr (List.not_mem_nil r)⟩

theorem aggInv_append (src : String) (h : Hit) (st : AggState)
    (hinv : AggInv st) (h1 : hitLink h ≠ "") (h2 : hitKey h ∉ st.seen) :
    AggInv { results := st.results ++ [mkResult src h],
             seen := hitKey h :: st.seen } := by
  obtain ⟨hnd, hsub, hlk⟩ := hinv
  refine ⟨?_, ?_, ?_⟩
  · rw [List.map_append, List.nodup_append]
    refine ⟨hnd, List.nodup_singleton _, ?_⟩
    intro k hk hk2
    simp only [List.map_cons, List.map_nil, List.mem_singleton] at hk2
    subst hk2
    rcases List.mem_map.1 hk with ⟨r, hr, hrk⟩
    have hmem : normKey r.link ∈ st.seen := hsub r hr
    rw [hrk] at hmem
    exact h2 hmem
  · intro r hr
    rcases List.mem_append.1 hr with hr' | hr'
    · exact List.mem_cons_of_mem _ (hsub r hr')
    · simp only [List.mem_singleton] at hr'
      subst hr'
      exact List.mem_cons_self _ _
  · intro r hr
    rcases List.mem_append.1 hr with hr' | hr'
    · exact hlk r hr'
    · simp only [List.mem_singleton] at hr'
      subst hr'
      exact h1

theorem add_hits_inv (aliases : List String) (mt : Nat) (src : String) :
    ∀ (hs : List Hit) (st : AggState),
      AggInv st → AggInv (add_hits aliases mt src st hs) := by
  intro hs
  induction hs with
  | nil => intro st h; exact h
  | cons h hs ih =>
    intro st hinv
    simp only [add_hits]
    split_ifs with h1 h2 h3 h4 h5
    · exact ih st hinv
    · exact ih st hinv
    · exact aggInv_append src h st hinv h1 h2
    · exact ih _ (aggInv_append src h st hinv h1 h2)
    · exact hinv
    · exact ih st hinv

theorem run_section_inv (aliases : List String) (mt : Nat) (src : String)
    (fetch : String → List Hit) :
    ∀ (qs : List String) (st : AggState),
      AggInv st → AggInv (run_section aliases mt src fetch st qs) := by
  intro qs
  induction qs with
  | nil => intro st h; exact h
  | cons q qs ih =>
    intro st hinv
    simp only [run_section]
    split_ifs with h1
    · exact add_hits_inv aliases mt src _ st hinv
    · exact ih _ (add_hits_inv aliases mt src _ st hinv)

theorem mkResult_key (src : String) (h : Hit) :
    normKey (mkResult src h).link = hitKey h := rfl

theorem length_filter_key_le_one (K : String) :
    ∀ l : List Result, (l.map (fun r => normKey r.link)).Nodup →
      (l.filter (fun r => decide (normKey r.link = K))).length ≤ 1 := by
  intro l
  induction l with
  | nil => intro _; simp
  | cons a l ih =>
    intro hnd
    rw [List.map_cons, List.nodup_cons] at hnd
    obtain ⟨hna, hnd'⟩ := hnd
    by_cases ha : normKey a.link = K
    · rw [List.filter_cons_of_pos (by simpa using ha)]
      have hnil : l.filter (fun r => decide (normKey r.link = K)) = [] := by
        rw [List.filter_eq_nil_iff]
        intro r hr
        simp only [decide_eq_true_eq]
        intro hK
        exact hna (List.mem_map.2 ⟨r, hr, hK.trans ha.symm⟩)
      rw [hnil]
      simp
    · rw [List.filter_cons_of_neg (by simpa using ha)]
      exact ih hnd'

theorem add_hits_keyfree (aliases : List String) (mt : Nat) (src : String)
    (K : String) :
    ∀ (hs : List Hit) (st : AggState),
      (∀ h ∈ hs, hitKey h ≠ K) → K ∉ st.seen →
      (∀ r ∈ st.results, normKey r.link ≠ K) →
      K ∉ (add_hits aliases mt src st hs).seen ∧
      (∀ r ∈ (add_hits aliases mt src st hs).results, normKey r.link ≠ K) := by
  intro hs
  induction hs with
  | nil => intro st _ h2 h3; exact ⟨h2, h3⟩
  | cons h hs ih =>
    intro st hfree hseen hres
    have hfree' : ∀ h' ∈ hs, hitKey h' ≠ K :=
      fun h' hh => hfree h' (List.mem_cons_of_mem _ hh)
    have hkh : hitKey h ≠ K := hfree h (List.mem_cons_self _ _)
    have hseen' : K ∉ hitKey h :: st.seen := by
      intro hK
      rcases List.mem_cons.1 hK with hK1 | hK2
      · exact hkh hK1.symm
      · exact hseen hK2
    have hres' : ∀ r ∈ st.results ++ [mkResult src h], normKey r.link ≠ K := by
      intro r hr
      rcases List.mem_append.1 hr with hr' | hr'
      · exact hres r hr'
      · simp only [List.mem_singleton] at hr'
        subst hr'
        rw [mkResult_key]
        exact hkh
    simp only [add_hits]
    split_ifs with h1 h2 h3 h4 h5
    · exact ih st hfree' hseen hres
    · exact ih st hfree' hseen hres
    · exact ⟨hseen', hres'⟩
    · exact ih _ hfree' hseen' hres'
    · exact ⟨hseen, hres⟩
    · exact ih st hfree' hseen hres

theorem add_hits_seen_preserve (aliases : List String) (mt : Nat) (src : String)
    (K : String) (R0 : Result) :
    ∀ (hs : List Hit) (st : AggState),
      K ∈ st.seen → (∀ r ∈ st.results, normKey r.link = K → r = R0) →
      K ∈ (add_hits aliases mt src st hs).seen ∧
      (∀ r ∈ (add_hits aliases mt src st hs).results,
        normKey r.link = K → r = R0) := by
  intro hs
  induction hs with
  | nil => intro st h1 h2; exact ⟨h1, h2⟩
  | cons h hs ih =>
    intro st hseen hres
    simp only [add_hits]
    split_ifs with h1 h2 h3 h4 h5
    · exact ih st hseen hres
    · exact ih st hseen hres
    · refine ⟨List.mem_cons_of_mem _ hseen, ?_⟩
      intro r hr hK
      rcases List.mem_append.1 hr with hr' | hr'
      · exact hres r hr' hK
      · simp only [List.mem_singleton] at hr'
        subst hr'
        rw [mkResult_key] at hK
        rw [← hK] at hseen
        exact absurd hseen h2
    · refine ih _ (List.mem_cons_of_mem _ hseen) ?_
      intro r hr hK
      rcases List.mem_append.1 hr with hr' | hr'
      · exact hres r hr' hK
      · simp only [List.mem_singleton] at hr'
        subst hr'
        rw [mkResult_key] at hK
        rw [← hK] at hseen
        exact absurd hseen h2
    · exact ⟨hseen, hres⟩
    · exact ih st hseen hres

theorem c1_main (aliases : List String) (mt : Nat) (src : String) (h1 : Hit)
    (hlink : hitLink h1 ≠ "") (hrel : relevantHit aliases h1 = true) :
    ∀ (l1 l2 : List Hit) (st : AggState),
      (∀ h ∈ l1, hitKey h ≠ hitKey h1) →
      hitKey h1 ∉ st.seen →
      (∀ r ∈ st.results, normKey r.link ≠ hitKey h1) →
      ∀ r ∈ (add_hits aliases mt src st (l1 ++ h1 :: l2)).results,
        normKey r.link = hitKey h1 → r = mkResult src h1 := by
  intro l1
  induction l1 with
  | nil =>
    intro l2 st _ hseen hres
    rw [List.nil_append]
    simp only [add_hits]
    rw [if_neg hlink, if_neg hseen]
    simp only [if_pos hrel]
    have hprop : ∀ r ∈ st.results ++ [mkResult src h1],
        normKey r.link = hitKey h1 → r = mkResult src h1 := by
      intro r hr hK
      rcases List.mem_append.1 hr with hr' | hr'
      · exact absurd hK (hres r hr')
      · simp only [List.mem_singleton] at hr'
        exact hr'
    split_ifs with hc4
    · exact hprop
    · exact (add_hits_seen_preserve aliases mt src (hitKey h1) (mkResult src h1) l2
        { results := st.results ++ [mkResult src h1], seen := hitKey h1 :: st.seen }
        (List.mem_cons_self _ _) hprop).2
  | cons h l1 ih =>
    intro l2 st hfree hseen hres
    have hfree' : ∀ h' ∈ l1, hitKey h' ≠ hitKey h1 :=
      fun h' hh => hfree h' (List.mem_cons_of_mem _ hh)
    have hkh : hitKey h ≠ hitKey h1 := hfree h (List.mem_cons_self _ _)
    have hseen' : hitKey h1 ∉ hitKey h :: st.seen := by
      intro hmem
      rcases List.mem_cons.1 hmem with he | hmem'
      · exact hkh he.symm
      · exact hseen hmem'
    have hres' : ∀ r ∈ st.results ++ [mkResult src h],
        normKey r.link ≠ hitKey h1 := by
      intro r hr
      rcases List.mem_append.1 hr with hr' | hr'
      · exact hres r hr'
      · simp only [List.mem_singleton] at hr'
        subst hr'
        rw [mkResult_key]
        exact hkh
    rw [List.cons_append]
    simp only [add_hits]
    split_ifs with hc1 hc2 hc3 hc4 hc5
    · exact ih l2 st hfree' hseen hres
    · exact ih l2 st hfree' hseen hres
    · intro r hr hK
      exact absurd hK (hres' r hr)
    · exact ih l2 _ hfree' hseen' hres'
    · intro r hr hK
      exact absurd hK (hres r hr)
    · exact ih l2 st hfree' hseen hres

/-- C1: two raw hits whose links share the same normalized key (the
link with any trailing `?...` query string stripped and trailing `/`
stripped) collapse to at most one result, and the first-kept hit wins:
once a relevant hit with a fresh key is processed, every result carrying
that key is exactly that hit's record.  In particular
"http://x.com/a?utm=1" and "http://x.com/a/" produce the same normalized
key. -/
theorem c1_dedup_first_wins :
    normKey "http://x.com/a?utm=1" = normKey "http://x.com/a/" ∧
    ∀ (aliases : List String) (mt : Nat) (src : String) (h1 : Hit)
      (l1 l2 : List Hit),
      hitLink h1 ≠ "" →
      relevantHit aliases h1 = true →
      (∀ h ∈ l1, hitKey h ≠ hitKey h1) →
      (∀ r ∈ (add_hits aliases mt src {} (l1 ++ h1 :: l2)).results,
          normKey r.link = hitKey h1 → r = mkResult src h1) ∧
      ((add_hits aliases mt src {} (l1 ++ h1 :: l2)).results.filter
          (fun r => decide (normKey r.link = hitKey h1))).length ≤ 1 := by
  refine ⟨by decide, ?_⟩
  intro aliases mt src h1 l1 l2 hlink hrel hfree
  constructor
  · exact c1_main aliases mt src h1 hlink hrel l1 l2 {}
      hfree (List.not_mem_nil _) (fun r hr => absurd hr (List.not_mem_nil r))
  · exact length_filter_key_le_one _ _
      (add_hits_inv aliases mt src _ {} aggInv_empty).1

theorem c1_dedup_first_wins_witness :
    (∀ r ∈ (add_hits ["Acme"] 10 "Bing" {}
        [{ title := "Acme fraud", link := "http://x.com/a?utm=1" },
         { title := "Acme scam", link := "http://x.com/a/" }]).results,
        normKey r.link =
          hitKey { title := "Acme fraud", link := "http://x.com/a?utm=1" } →
        r = mkResult "Bing" { title := "Acme fraud", link := "http://x.com/a?utm=1" }) ∧
    ((add_hits ["Acme"] 10 "Bing" {}
        [{ title := "Acme fraud", link := "http://x.com/a?utm=1" },
         { title := "Acme scam", link := "http://x.com/a/" }]).results.filter
        (fun r => decide (normKey r.link =
          hitKey { title := "Acme fraud", link := "http://x.com/a?utm=1" }))).length ≤ 1 :=
  c1_dedup_first_wins.2 ["Acme"] 10 "Bing"
    { title := "Acme fraud", link := "http://x.com/a?utm=1" } []
    [{ title := "Acme scam", link := "http://x.com/a/" }]
    (by decide) (by decide) (by decide)

/-- C2 counterexample: a single DuckDuckGo batch of two relevant hits
with distinct fresh keys, processed with `max_total = 1`, keeps only the
first — the cap cuts the batch off mid-way, so the claim that the cap is
"only checked after each connector batch is fully applied, never cutting
off the addition of relevant hits in the middle of a batch" (which would
keep both) is false. -/
theorem c2_counterexample :
    (add_hits ["Acme"] 1 "DuckDuckGo" {}
      [{ title := "Acme fraud", link := "http://a.com/1" },
       { title := "Acme scam", link := "http://a.com/2" }]).results =
      [⟨"DuckDuckGo", "Acme fraud", "", "http://a.com/1"⟩] ∧
    relevantHit ["Acme"] { title := "Acme fraud", link := "http://a.com/1" } = true ∧
    relevantHit ["Acme"] { title := "Acme scam", link := "http://a.com/2" } = true ∧
    hitKey { title := "Acme fraud", link := "http://a.com/1" : Hit } ≠
      hitKey { title := "Acme scam", link := "http://a.com/2" : Hit } ∧
    hitLink { title := "Acme scam", link := "http://a.com/2" : Hit } ≠ "" :=
  ⟨by decide, by decide, by decide, by decide, by decide⟩

/-- C2 (amended): the `max_total` cap is checked after each processed
hit, so a batch that starts below the cap never pushes the result list
past `max_total` (a batch is cut off as soon as the cap is reached); and
once the result list has reached `max_total`, the connector loop issues
at most the one pending query and stops. -/
theorem c2_soft_cap_amended :
    (∀ (aliases : List String) (mt : Nat) (src : String) (st : AggState)
        (hs : List Hit),
        st.results.length < mt →
        (add_hits aliases mt src st hs).results.length ≤ mt) ∧
    (∀ (aliases : List String) (mt : Nat) (src : String)
        (fetch : String → List Hit) (st : AggState) (q : String) (qs : List String),
        mt ≤ st.results.length →
        run_section aliases mt src fetch st (q :: qs) =
          add_hits aliases mt src st (fetch q)) := by
  constructor
  · intro aliases mt src st hs hlt
    exact add_hits_length_le aliases mt src hs st hlt
  · intro aliases mt src fetch st q qs hge
    simp only [run_section]
    rw [if_pos]
    exact Nat.le_trans hge (add_hits_length_mono aliases mt src _ st)

theorem c2_soft_cap_amended_witness :
    ((({} : AggState).results.length < 2 ∧
      (add_hits ["Acme"] 2 "Bing" {}
        [{ title := "Acme fraud", link := "http://a.com/1" },
         { title := "Acme scam", link := "http://a.com/2" },
         { title := "Acme lawsuit", link := "http://a.com/3" }]).results.length ≤ 2)) ∧
    (2 ≤ (AggState.mk [⟨"Bing", "t1", "", "http://a.com/1"⟩,
            ⟨"Bing", "t2", "", "http://a.com/2"⟩]
            ["http://a.com/1", "http://a.com/2"]).results.length ∧
      run_section ["Acme"] 2 "Bing" (fun _ => [])
        (AggState.mk [⟨"Bing", "t1", "", "http://a.com/1"⟩,
            ⟨"Bing", "t2", "", "http://a.com/2"⟩]
            ["http://a.com/1", "http://a.com/2"]) ["q1", "q2"] =
        add_hits ["Acme"] 2 "Bing"
          (AggState.mk [⟨"Bing", "t1", "", "http://a.com/1"⟩,
              ⟨"Bing", "t2", "", "http://a.com/2"⟩]
              ["http://a.com/1", "http://a.com/2"]) []) :=
  ⟨⟨by decide, c2_soft_cap_amended.1 ["Acme"] 2 "Bing" {} _ (by decide)⟩,
   ⟨by decide, c2_soft_cap_amended.2 ["Acme"] 2 "Bing" (fun _ => []) _ "q1" ["q2"]
      (by decide)⟩⟩

/-! ## Stable-sort lemmas for the domain-priority re-sort -/

theorem enumFrom_map_snd {α : Type} (l : List α) :
    ∀ n, (l.enumFrom n).map Prod.snd = l := by
  induction l with
  | nil => intro n; rfl
  | cons a l ih =>
    intro n
    simp only [List.enumFrom, List.map_cons, ih]

theorem mem_enumFrom_fst {α : Type} (l : List α) :
    ∀ (n : Nat) (p : Nat × α), p ∈ l.enumFrom n → n ≤ p.1 := by
  induction l with
  | nil => intro n p h; exact absurd h (List.not_mem_nil p)
  | cons a l ih =>
    intro n p h
    rcases List.mem_cons.1 h with rfl | h'
    · exact Nat.le_refl n
    · exact Nat.le_of_succ_le (ih (n + 1) p h')

theorem pairwise_fst_lt_enumFrom {α : Type} (l : List α) :
    ∀ n, List.Pairwise (fun x y : Nat × α => x.1 < y.1) (l.enumFrom n) := by
  induction l with
  | nil => intro n; exact List.Pairwise.nil
  | cons a l ih =>
    intro n
    simp only [List.enumFrom]
    refine List.Pairwise.cons ?_ (ih (n + 1))
    intro p hp
    exact Nat.lt_of_succ_le (mem_enumFrom_fst l (n + 1) p hp)

theorem enumFrom_filter_map_snd {α : Type} (q : α → Bool) (l : List α) :
    ∀ n, ((l.enumFrom n).filter (fun x => q x.2)).map Prod.snd = l.filter q := by
  induction l with
  | nil => intro n; rfl
  | cons a l ih =>
    intro n
    simp only [List.enumFrom, List.filter_cons]
    by_cases hq : q a
    · simp only [hq, if_true]
      simp only [List.map_cons, ih]
    · simp only [hq, if_false]
      exact ih (n + 1)

instance : IsAntisymm (Nat × Result) (fun x y => x.1 < y.1) where
  antisymm a b h1 h2 := absurd (Nat.lt_trans h1 h2) (Nat.lt_irrefl _)

theorem sortByDomain_perm (dp : List String) (l : List Result) :
    (sortByDomain dp l).Perm l := by
  unfold sortByDomain
  have h := (List.perm_insertionSort (keyRel dp) l.enum).map Prod.snd
  rwa [show (l.enum.map Prod.snd) = l from enumFrom_map_snd l 0] at h

theorem apply_domain_priority_perm (dp? : Option (List String)) (l : List Result) :
    (apply_domain_priority dp? l).Perm l := by
  cases dp? with
  | none => exact List.Perm.refl l
  | some dp =>
    show (if dp ≠ [] then sortByDomain dp l else l).Perm l
    split
    · exact sortByDomain_perm dp l
    · exact List.Perm.refl l

theorem sortByDomain_sorted (dp : List String) (l : List Result) :
    List.Pairwise (fun r1 r2 => domain_score dp r1.link ≤ domain_score dp r2.link)
      (sortByDomain dp l) := by
  unfold sortByDomain
  have hsort : List.Pairwise (keyRel dp) (l.enum.insertionSort (keyRel dp)) :=
    List.sorted_insertionSort (keyRel dp) l.enum
  refine List.pairwise_map.2 ?_
  refine List.Pairwise.imp ?_ hsort
  intro a b hab
  rcases hab with h | ⟨h, _⟩
  · exact le_of_lt h
  · exact le_of_eq h

theorem sortByDomain_stable (dp : List String) (l : List Result) (s : Int) :
    (sortByDomain dp l).filter (fun r => decide (domain_score dp r.link = s)) =
      l.filter (fun r => decide (domain_score dp r.link = s)) := by
  unfold sortByDomain
  have hperm : (l.enum.insertionSort (keyRel dp)).Perm l.enum :=
    List.perm_insertionSort (keyRel dp) l.enum
  have hsort : List.Pairwise (keyRel dp) (l.enum.insertionSort (keyRel dp)) :=
    List.sorted_insertionSort (keyRel dp) l.enum
  rw [List.filter_map]
  simp only [Function.comp_def]
  have hfperm : ((l.enum.insertionSort (keyRel dp)).filter
        (fun x => decide (domain_score dp x.2.link = s))).Perm
      (l.enum.filter (fun x => decide (domain_score dp x.2.link = s))) :=
    hperm.filter _
  have hnod : ((l.enum.insertionSort (keyRel dp)).map Prod.fst).Nodup :=
    ((hperm.map Prod.fst).nodup_iff).2 (List.nodup_enum_map_fst l)
  have hfst_ne : List.Pairwise (fun x y : Nat × Result => x.1 ≠ y.1)
      (l.enum.insertionSort (keyRel dp)) := List.pairwise_map.1 hnod
  have hstrict1 : List.Pairwise (fun x y : Nat × Result => x.1 < y.1)
      ((l.enum.insertionSort (keyRel dp)).filter
        (fun x => decide (domain_score dp x.2.link = s))) := by
    refine List.Pairwise.imp_of_mem ?_ ((hsort.and hfst_ne).filter _)
    intro a b ha hb hab
    have hqa : domain_score dp a.2.link = s :=
      of_decide_eq_true (List.mem_filter.1 ha).2
    have hqb : domain_score dp b.2.link = s :=
      of_decide_eq_true (List.mem_filter.1 hb).2
    rcases hab.1 with hlt | ⟨_, hle⟩
    · rw [hqa, hqb] at hlt
      exact absurd hlt (lt_irrefl s)
    · exact Nat.lt_of_le_of_ne hle hab.2
  have hstrict2 : List.Pairwise (fun x y : Nat × Result => x.1 < y.1)
      (l.enum.filter (fun x => decide (domain_score dp x.2.link = s))) :=
    (pairwise_fst_lt_enumFrom l 0).filter _
  have heq := List.eq_of_perm_of_sorted hfperm hstrict1 hstrict2
  rw [heq]
  exact enumFrom_filter_map_snd (fun r => decide (domain_score dp r.link = s)) l 0

/-- C8: with a non-empty domain-priority list supplied, the
post-aggregation re-sort is the stable sort by the score
`-(listLength - index)` of the first priority entry whose domain
substring occurs in the link's hostname (0 when none matches): the
loop-computed score agrees with that formula, and the sorted output is a
permutation of the input, is ordered by non-decreasing score, and keeps,
for every score value, the original relative order of its carriers. -/
theorem c8_domain_priority_sort :
    (∀ (dp : List String) (link : String),
        domain_score dp link = domainScoreSpec dp link) ∧
    (∀ (dp : List String) (results : List Result), dp ≠ [] →
        (apply_domain_priority (some dp) results).Perm results ∧
        List.Pairwise
          (fun r1 r2 => domain_score dp r1.link ≤ domain_score dp r2.link)
          (apply_domain_priority (some dp) results) ∧
        (∀ s : Int,
          (apply_domain_priority (some dp) results).filter
              (fun r => decide (domain_score dp r.link = s)) =
            results.filter (fun r => decide (domain_score dp r.link = s)))) := by
  constructor
  · intro dp link
    unfold domain_score domainScoreSpec
    cases pyHostname link with
    | none => rfl
    | some host =>
      have hgo : ∀ (ds : List String) (idx : Nat),
          domainScoreGo host dp.length ds idx =
            match (ds.enumFrom idx).find? (fun p => strContains host p.2) with
            | some p => -((dp.length : Int) - (p.1 : Int))
            | none => 0 := by
        intro ds
        induction ds with
        | nil => intro idx; rfl
        | cons d ds ih =>
          intro idx
          simp only [domainScoreGo, List.enumFrom]
          by_cases hd : strContains host d
          · rw [if_pos hd, List.find?_cons_of_pos _ (by simpa using hd)]
          · rw [if_neg hd, List.find?_cons_of_neg _ (by simpa using hd), ih]
      exact hgo dp 0
  · intro dp results hdp
    have happ : apply_domain_priority (some dp) results = sortByDomain dp results := by
      show (if dp ≠ [] then sortByDomain dp results else results) = _
      rw [if_pos hdp]
    rw [happ]
    exact ⟨sortByDomain_perm dp results, sortByDomain_sorted dp results,
      fun s => sortByDomain_stable dp results s⟩

theorem c8_domain_priority_sort_witness :
    apply_domain_priority (some ["a.com", "b.com"])
      [⟨"Bing", "tb", "", "http://b.com/x"⟩, ⟨"Bing", "ta", "", "http://a.com/y"⟩,
       ⟨"Bing", "tc", "", "http://c.com/z"⟩] =
      [⟨"Bing", "ta", "", "http://a.com/y"⟩, ⟨"Bing", "tb", "", "http://b.com/x"⟩,
       ⟨"Bing", "tc", "", "http://c.com/z"⟩] ∧
    (["a.com", "b.com"] ≠ ([] : List String)) ∧
    ((apply_domain_priority (some ["a.com", "b.com"])
        [⟨"Bing", "tb", "", "http://b.com/x"⟩, ⟨"Bing", "ta", "", "http://a.com/y"⟩,
         ⟨"Bing", "tc", "", "http://c.com/z"⟩]).Perm
      [⟨"Bing", "tb", "", "http://b.com/x"⟩, ⟨"Bing", "ta", "", "http://a.com/y"⟩,
       ⟨"Bing", "tc", "", "http://c.com/z"⟩] ∧
     List.Pairwise
       (fun r1 r2 => domain_score ["a.com", "b.com"] r1.link ≤
         domain_score ["a.com", "b.com"] r2.link)
       (apply_domain_priority (some ["a.com", "b.com"])
         [⟨"Bing", "tb", "", "http://b.com/x"⟩, ⟨"Bing", "ta", "", "http://a.com/y"⟩,
          ⟨"Bing", "tc", "", "http://c.com/z"⟩]) ∧
     (∀ s : Int,
       (apply_domain_priority (some ["a.com", "b.com"])
           [⟨"Bing", "tb", "", "http://b.com/x"⟩, ⟨"Bing", "ta", "", "http://a.com/y"⟩,
            ⟨"Bing", "tc", "", "http://c.com/z"⟩]).filter
           (fun r => decide (domain_score ["a.com", "b.com"] r.link = s)) =
         [⟨"Bing", "tb", "", "http://b.com/x"⟩, ⟨"Bing", "ta", "", "http://a.com/y"⟩,
          ⟨"Bing", "tc", "", "http://c.com/z"⟩].filter
           (fun r => decide (domain_score ["a.com", "b.com"] r.link = s)))) :=
  ⟨by decide, by decide,
   c8_domain_priority_sort.2 ["a.com", "b.com"]
     [⟨"Bing", "tb", "", "http://b.com/x"⟩, ⟨"Bing", "ta", "", "http://a.com/y"⟩,
      ⟨"Bing", "tc", "", "http://c.com/z"⟩] (by decide)⟩

theorem smart_fetch_entity_eq (env : Env) (name : String) (psl mt : Nat)
    (un ua : Bool) (dp : Option (List String)) (hn : name ≠ "") :
    smart_fetch_entity env name psl mt un ua dp =
      apply_domain_priority dp (sfSt3 env name psl mt un ua).results := by
  rw [smart_fetch_entity, if_neg hn]
  rfl

theorem sfSt3_inv (env : Env) (name : String) (psl mt : Nat) (un ua : Bool) :
    AggInv (sfSt3 env name psl mt un ua) := by
  apply run_section_inv
  apply run_section_inv
  unfold sfSt1
  split
  · exact run_section_inv _ _ _ _ _ _ aggInv_empty
  · exact aggInv_empty

theorem sfSt3_len (env : Env) (name : String) (psl mt : Nat) (un ua : Bool)
    (hmt : 1 ≤ mt) :
    (sfSt3 env name psl mt un ua).results.length ≤ mt + 2 := by
  have h1 : (sfSt1 env name psl mt un ua).results.length ≤ mt := by
    unfold sfSt1
    split
    · refine run_section_length_le _ _ _ _ _ _ ?_
      show ([] : List Result).length < mt
      simpa using hmt
    · show ([] : List Result).length ≤ mt
      simp
  have h2 : (sfSt2 env name psl mt un ua).results.length ≤ mt + 1 := by
    have hb : (sfSt2 env name psl mt un ua).results.length ≤
        max (sfSt1 env name psl mt un ua).results.length mt + 1 :=
      run_section_length_bound (sfAliases env name ua) mt "DuckDuckGo"
        (fun a => env.ddg (a ++ " sanctions OR fraud OR investigation") psl)
        ((sfAliases env name ua).take 4) (sfSt1 env name psl mt un ua)
    omega
  have hb3 : (sfSt3 env name psl mt un ua).results.length ≤
      max (sfSt2 env name psl mt un ua).results.length mt + 1 :=
    run_section_length_bound (sfAliases env name ua) mt "Bing"
      (fun q => env.bing q psl) ((sfQueryBank env name ua).take 24)
      (sfSt2 env name psl mt un ua)
  omega

/-- C10 counterexample: with `max_total = 1`, one relevant DuckDuckGo
hit fills the cap, yet the Bing section still adds a second result
before its own cap check fires — the result list exceeds `max_total`,
so "the length of the result list never exceeds max_total" is false. -/
theorem c10_counterexample :
    (smart_fetch_entity
        { alias_overrides := [], newsdata_key := "",
          newsdata := fun _ _ => [], wiki := fun _ _ => [],
          ddg := fun _ _ => [{ title := "Acme fraud", link := "http://a.com/1" }],
          bing := fun _ _ => [{ title := "Acme scam", link := "http://b.com/2" }] }
        "Acme" 6 1 false false none).length = 2 ∧
    ¬ ((smart_fetch_entity
        { alias_overrides := [], newsdata_key := "",
          newsdata := fun _ _ => [], wiki := fun _ _ => [],
          ddg := fun _ _ => [{ title := "Acme fraud", link := "http://a.com/1" }],
          bing := fun _ _ => [{ title := "Acme scam", link := "http://b.com/2" }] }
        "Acme" 6 1 false false none).length ≤ 1) :=
  ⟨by decide, by decide⟩

/-- C10 (amended): for every environment and `max_total ≥ 1`, every
returned result has a non-empty link, the normalized link keys of the
returned results are pairwise distinct, the result list length never
exceeds `max_total + 2` (the cap can be overshot by at most one result
per later connector section), and an empty entity name yields the empty
list. -/
theorem c10_invariants_amended :
    ∀ (env : Env) (name : String) (psl mt : Nat) (un ua : Bool)
      (dp : Option (List String)), 1 ≤ mt →
      (∀ r ∈ smart_fetch_entity env name psl mt un ua dp, r.link ≠ "") ∧
      ((smart_fetch_entity env name psl mt un ua dp).map
        (fun r => normKey r.link)).Nodup ∧
      (smart_fetch_entity env name psl mt un ua dp).length ≤ mt + 2 ∧
      (name = "" → smart_fetch_entity env name psl mt un ua dp = []) := by
  intro env name psl mt un ua dp hmt
  by_cases hn : name = ""
  · have hempty : smart_fetch_entity env name psl mt un ua dp = [] := by
      rw [smart_fetch_entity, if_pos hn]
    rw [hempty]
    exact ⟨fun r hr => absurd hr (List.not_mem_nil r), List.nodup_nil,
      by simp, fun _ => rfl⟩
  · rw [smart_fetch_entity_eq env name psl mt un ua dp hn]
    have hinv := sfSt3_inv env name psl mt un ua
    have hlen := sfSt3_len env name psl mt un ua hmt
    have hperm := apply_domain_priority_perm dp (sfSt3 env name psl mt un ua).results
    refine ⟨?_, ?_, ?_, fun h => absurd h hn⟩
    · intro r hr
      exact hinv.2.2 r (hperm.mem_iff.1 hr)
    · exact ((hperm.map (fun r => normKey r.link)).nodup_iff).2 hinv.1
    · rw [hperm.length_eq]
      exact hlen

theorem c10_invariants_amended_witness :
    (1 : Nat) ≤ 1 ∧
    ((∀ r ∈ smart_fetch_entity
        { alias_overrides := [], newsdata_key := "", newsdata := fun _ _ => [],
          ddg := fun _ _ => [], bing := fun _ _ => [], wiki := fun _ _ => [] }
        "Acme" 6 1 false false none, r.link ≠ "") ∧
     ((smart_fetch_entity
        { alias_overrides := [], newsdata_key := "", newsdata := fun _ _ => [],
          ddg := fun _ _ => [], bing := fun _ _ => [], wiki := fun _ _ => [] }
        "Acme" 6 1 false false none).map (fun r => normKey r.link)).Nodup ∧
     (smart_fetch_entity
        { alias_overrides := [], newsdata_key := "", newsdata := fun _ _ => [],
          ddg := fun _ _ => [], bing := fun _ _ => [], wiki := fun _ _ => [] }
        "Acme" 6 1 false false none).length ≤ 1 + 2 ∧
     ("Acme" = "" → smart_fetch_entity
        { alias_overrides := [], newsdata_key := "", newsdata := fun _ _ => [],
          ddg := fun _ _ => [], bing := fun _ _ => [], wiki := fun _ _ => [] }
        "Acme" 6 1 false false none = [])) :=
  ⟨by decide,
   c10_invariants_amended
     { alias_overrides := [], newsdata_key := "", newsdata := fun _ _ => [],
       ddg := fun _ _ => [], bing := fun _ _ => [], wiki := fun _ _ => [] }
     "Acme" 6 1 false false none (by decide)⟩

end SamRadar
